import Mathlib

/-!
Verification of the freeform proxy-string parser `smartParseProxy` from
`src/webui/app.js`.

The source is a single JavaScript function built around one regular
expression (flag `i`, no `g`, unanchored):

  /(?:(http|https|socks4|socks5|socks5h)(?::\/\/|\s+))?(?:([^:@\s]+):([^:@\s]+)@)?([a-zA-Z0-9.-]+):(\d{1,5})(?::([^:\s]+):([^:\s]+))?/i

`String.prototype.match` with a non-global regex returns the leftmost match
(with captures) under ordered-alternation backtracking semantics.  The
embedding below implements exactly that search for this particular pattern,
as an explicit recursive-descent matcher over `List Char`:

* Every character class of the pattern becomes a `Bool` predicate
  (`isHostChar` for `[a-zA-Z0-9.-]`, `isCredChar` for `[^:@\s]`,
  `isSuffixChar` for `[^:\s]`, `isDigitChar` for `\d`, `isJsWhitespace`
  for `\s` of a JavaScript regex without the `u` flag).
* Each `X+`/`X{1,5}` greedy repetition in this pattern is deterministic:
  every repetition is immediately followed either by a character that the
  class itself excludes (`:`, `@`, or nothing at the pattern end), so a
  shorter, backtracked repetition would place a class character where the
  follow-up literal is required and fail again.  Hence greedy `takeWhile`
  (and `take 5` for `\d{1,5}`, whose optional follow-up group can never
  force backtracking because the pattern ends right after it) is an exact
  model, not an approximation.
* Ordered choice is kept explicitly: the optional scheme group tries its
  five alternatives left to right, then absence; the optional credential
  prefix tries presence then absence; likewise the credential suffix.
* The unanchored search tries the pattern at index 0, 1, 2, ... and keeps
  the first success (`jsSearch`).

The JavaScript code then post-processes the captured groups
(`finishParse` below) and the whole function is `smartParseProxy`.
-/

/-! ### Character classes of the regex -/

/-- JavaScript regex `\s` (and also the set removed by
`String.prototype.trim`): space, `\t`..`\r`, NBSP, Ogham space mark,
U+2000..U+200A, line/paragraph separator, narrow NBSP, medium
mathematical space, ideographic space, BOM. -/
def isJsWhitespace (c : Char) : Bool :=
  decide (c.toNat = 32) || decide (9 ≤ c.toNat ∧ c.toNat ≤ 13) ||
  decide (c.toNat = 160) || decide (c.toNat = 5760) ||
  decide (8192 ≤ c.toNat ∧ c.toNat ≤ 8202) ||
  decide (c.toNat = 8232) || decide (c.toNat = 8233) ||
  decide (c.toNat = 8239) || decide (c.toNat = 8287) ||
  decide (c.toNat = 12288) || decide (c.toNat = 65279)

/-- Host class `[a-zA-Z0-9.-]` of the regex. -/
def isHostChar (c : Char) : Bool :=
  decide (97 ≤ c.toNat ∧ c.toNat ≤ 122) || decide (65 ≤ c.toNat ∧ c.toNat ≤ 90) ||
  decide (48 ≤ c.toNat ∧ c.toNat ≤ 57) || decide (c.toNat = 46) || decide (c.toNat = 45)

/-- Digit class `\d` of the regex. -/
def isDigitChar (c : Char) : Bool :=
  decide (48 ≤ c.toNat ∧ c.toNat ≤ 57)

/-- Class `[^:@\s]` of the credential-prefix tokens (`user:pass@`). -/
def isCredChar (c : Char) : Bool :=
  !(c == ':' || c == '@' || isJsWhitespace c)

/-- Class `[^:\s]` of the credential-suffix tokens (`:user:pass`). -/
def isSuffixChar (c : Char) : Bool :=
  !(c == ':' || isJsWhitespace c)

/-- ASCII letters (used to state "clearly non-numeric" port tokens). -/
def isAsciiAlpha (c : Char) : Bool :=
  decide (97 ≤ c.toNat ∧ c.toNat ≤ 122) || decide (65 ≤ c.toNat ∧ c.toNat ≤ 90)

/-- Characters that can occur in the five scheme literals
(`http|https|socks4|socks5|socks5h`): ASCII lowercase letters and digits. -/
def isSchemeLitChar (c : Char) : Bool :=
  decide (97 ≤ c.toNat ∧ c.toNat ≤ 122) || decide (48 ≤ c.toNat ∧ c.toNat ≤ 57)

/-! ### The match object -/

/-- The capture groups of a successful match of the regex.
Groups 2 and 3 live inside one optional non-capturing group and therefore
participate together, as do groups 6 and 7; the pairing encodes exactly
that structure of the pattern.  Group 4 (host) and group 5 (port digits)
are mandatory. -/
structure RawMatch where
  scheme : Option (List Char)
  cred : Option (List Char × List Char)
  host : List Char
  port : List Char
  suffix : Option (List Char × List Char)
deriving Repr, DecidableEq

/-! ### The matcher -/

/-- Case-insensitive literal match (scheme alternatives): consumes
`pat.length` input characters whose ASCII lowercase equals the pattern,
returning the consumed original characters (the capture) and the rest. -/
def matchLitCI : List Char → List Char → Option (List Char × List Char)
  | [], l => some ([], l)
  | _ :: _, [] => none
  | p :: ps, c :: cs =>
    if Char.toLower c = p then
      match matchLitCI ps cs with
      | some (cap, r) => some (c :: cap, r)
      | none => none
    else none

/-- Separator after a scheme token, `(?::\/\/|\s+)`: either `://` or
whitespace.  The `\s+` repetition is greedy; shorter matches are never
tried by the real engine either, because everything that can follow it
(a credential token or a host character) excludes whitespace. -/
def matchSep (l : List Char) : Option (List Char) :=
  match l with
  | [] => none
  | c :: r =>
    if c == ':' then
      match r with
      | c2 :: r2 =>
        if c2 == '/' then
          match r2 with
          | c3 :: r3 => if c3 == '/' then some r3 else none
          | [] => none
        else none
      | [] => none
    else
      if (c :: r).takeWhile isJsWhitespace = [] then none
      else some ((c :: r).dropWhile isJsWhitespace)

/-- Credential prefix group `(?:([^:@\s]+):([^:@\s]+)@)?`, presence case:
greedy token, `:`, greedy token, `@`; returns (user, pass, rest).  Both `[^:@\s]+` runs are
maximal: the class excludes `:` and `@`, so a shorter run would put a
class character where the following literal is required. -/
def matchCred (l : List Char) : Option (List Char × List Char × List Char) :=
  if l.takeWhile isCredChar = [] then none
  else
    match l.dropWhile isCredChar with
    | c :: r1 =>
      if c == ':' then
        if r1.takeWhile isCredChar = [] then none
        else
          match r1.dropWhile isCredChar with
          | c2 :: r2 => if c2 == '@' then some (l.takeWhile isCredChar, r1.takeWhile isCredChar, r2) else none
          | [] => none
      else none
    | [] => none

/-- Credential suffix group `(?::([^:\s]+):([^:\s]+))?`, presence case:
`:`, greedy token, `:`, greedy token.  The second token ends the whole pattern, so its
maximal run is final; input may remain after it. -/
def matchSuffix (l : List Char) : Option (List Char × List Char) :=
  match l with
  | [] => none
  | c :: r =>
    if c == ':' then
      if r.takeWhile isSuffixChar = [] then none
      else
        match r.dropWhile isSuffixChar with
        | c2 :: r2 =>
          if c2 == ':' then
            if r2.takeWhile isSuffixChar = [] then none
            else some (r.takeWhile isSuffixChar, r2.takeWhile isSuffixChar)
          else none
        | [] => none
    else none

/-- Host and port, `([a-zA-Z0-9.-]+):(\d{1,5})`, followed by the optional
suffix group.
The host run is maximal (the class excludes `:`).  `\d{1,5}` takes
`min 5 run` digits; the engine never backtracks into it because the
optional suffix group and the pattern end both succeed unconditionally
afterwards. -/
def matchHostPort (l : List Char) : Option (List Char × List Char × Option (List Char × List Char)) :=
  if l.takeWhile isHostChar = [] then none
  else
    match l.dropWhile isHostChar with
    | c :: r1 =>
      if c == ':' then
        if (r1.takeWhile isDigitChar).take 5 = [] then none
        else
          some (l.takeWhile isHostChar, (r1.takeWhile isDigitChar).take 5,
            matchSuffix (r1.drop ((r1.takeWhile isDigitChar).take 5).length))
      else none
    | [] => none

/-- The pattern after the scheme part: optional credential prefix (tried
first, greedy), then host/port/suffix.  If the prefix matches but the
remainder fails, the engine falls back to the absent case at the same
position; no other backtrack into the prefix exists (its runs are
deterministic). -/
def matchBody (l : List Char) :
    Option (Option (List Char × List Char) × List Char × List Char × Option (List Char × List Char)) :=
  match matchCred l with
  | some (u, pw, r) =>
    match matchHostPort r with
    | some (hst, prt, suf) => some (some (u, pw), hst, prt, suf)
    | none =>
      match matchHostPort l with
      | some (hst, prt, suf) => some (none, hst, prt, suf)
      | none => none
  | none =>
    match matchHostPort l with
    | some (hst, prt, suf) => some (none, hst, prt, suf)
    | none => none

/-- The five scheme alternatives, in the pattern's order. -/
def schemeAlts : List (List Char) :=
  ["http".data, "https".data, "socks4".data, "socks5".data, "socks5h".data]

/-- Try the scheme alternatives in order; each successful literal +
separator is committed to the body, and failure anywhere falls through to
the next alternative (exactly the engine's ordered backtracking). -/
def tryAlts : List (List Char) → List Char → Option RawMatch
  | [], _ => none
  | a :: rest, l =>
    match matchLitCI a l with
    | some (cap, r) =>
      match matchSep r with
      | some r2 =>
        match matchBody r2 with
        | some (cred, hst, prt, suf) => some ⟨some cap, cred, hst, prt, suf⟩
        | none => tryAlts rest l
      | none => tryAlts rest l
    | none => tryAlts rest l

/-- One attempt of the whole pattern at a fixed start position: scheme
group present (five ordered alternatives) first, then absent. -/
def matchAt (l : List Char) : Option RawMatch :=
  match tryAlts schemeAlts l with
  | some m => some m
  | none =>
    match matchBody l with
    | some (cred, hst, prt, suf) => some ⟨none, cred, hst, prt, suf⟩
    | none => none

/-- Unanchored leftmost search: try each start position left to right. -/
def jsSearch : List Char → Option RawMatch
  | [] => matchAt []
  | c :: cs =>
    match matchAt (c :: cs) with
    | some m => some m
    | none => jsSearch cs

/-! ### The surrounding JavaScript -/

/-- JavaScript `String.prototype.trim`. -/
def jsTrim (l : List Char) : List Char :=
  ((l.dropWhile isJsWhitespace).reverse.dropWhile isJsWhitespace).reverse

/-- Accumulate a decimal digit list into a number (helper for `parseInt`). -/
def digitsToNat (l : List Char) : Nat :=
  l.foldl (fun a c => a * 10 + (c.toNat - 48)) 0

/-- The digit-run part of `parseInt(s, 10)`: maximal decimal prefix,
`none` (NaN) when there is none. -/
def jsParseDigits (l : List Char) : Option Int :=
  if l.takeWhile isDigitChar = [] then none
  else some ((digitsToNat (l.takeWhile isDigitChar) : Nat) : Int)

/-- JavaScript `parseInt(s, 10)`: skip leading whitespace, optional sign, then a
maximal run of decimal digits; `none` models NaN. -/
def jsParseInt (l : List Char) : Option Int :=
  match l.dropWhile isJsWhitespace with
  | [] => none
  | c :: r =>
    if c == '-' then (jsParseDigits r).map (fun n => -n)
    else if c == '+' then jsParseDigits r
    else jsParseDigits (c :: r)

/-- Fallback chain `match[2] || match[6] || ""` (and likewise for 3/7): JavaScript `||`
falls through on `undefined` (absent group) and on the empty string. -/
def jsOrB : Option (List Char) → List Char
  | some t => if t = [] then [] else t
  | none => []

/-- First truthy of two optional captures, else empty. -/
def jsOr (a b : Option (List Char)) : List Char :=
  match a with
  | some s => if s = [] then jsOrB b else s
  | none => jsOrB b

/-- Dot-only host test `/^\.+$/.test(host)`: non-empty and consisting solely of dots. -/
def allDots (l : List Char) : Bool :=
  !l.isEmpty && l.all (fun c => c == '.')

/-- JavaScript `String.prototype.includes`, on character lists. -/
def listStartsWith : List Char → List Char → Bool
  | [], _ => true
  | _ :: _, [] => false
  | a :: as, b :: bs => a == b && listStartsWith as bs

/-- Substring containment test (`rawType.includes("socks4")` etc.). -/
def jsIncludes : List Char → List Char → Bool
  | pat, [] => listStartsWith pat []
  | pat, c :: cs => listStartsWith pat (c :: cs) || jsIncludes pat cs

/-- The scheme normalization of the source:
`rawType.includes("socks4") → "socks4"`, else `socks5`, else `http`,
default `http`. -/
def typeOfRaw (rawType : List Char) : String :=
  if jsIncludes "socks4".data rawType then "socks4"
  else if jsIncludes "socks5".data rawType then "socks5"
  else if jsIncludes "http".data rawType then "http"
  else "http"

/-- The record returned by `smartParseProxy`:
`{ type, host, port, user, pass }`.  The source stores the port as the
matched digit substring (`match[5]`), i.e. a string. -/
structure ProxyDescriptor where
  type : String
  host : String
  port : String
  user : String
  pass : String
deriving Repr, DecidableEq

/-- Post-processing of a successful regex match, exactly as in the
source: lowercase the scheme capture, normalize it, take host/port from
groups 4/5, credentials from groups 2/3 else 6/7, validate the port
range via `parseInt`, reject dot-only hosts, and build the record. -/
def finishParse (m : RawMatch) : Option ProxyDescriptor :=
  match jsParseInt m.port with
  | none => none
  | some portNum =>
    if portNum < 0 ∨ portNum > 65535 then none
    else if allDots m.host then none
    else
      some ⟨typeOfRaw ((m.scheme.getD []).map Char.toLower),
        String.mk m.host, String.mk m.port,
        String.mk (jsOr (m.cred.map Prod.fst) (m.suffix.map Prod.fst)),
        String.mk (jsOr (m.cred.map Prod.snd) (m.suffix.map Prod.snd))⟩

/-- Function `smartParseProxy` from `src/webui/app.js`: trim, reject empty input,
run the regex search, post-process the first match. -/
def smartParseProxy (text : String) : Option ProxyDescriptor :=
  if jsTrim text.data = [] then none
  else
    match jsSearch (jsTrim text.data) with
    | none => none
    | some m => finishParse m







/-! ### List helper lemmas -/

theorem takeWhile_all {α} {p : α → Bool} {l : List α} (h : ∀ c ∈ l, p c = true) :
    l.takeWhile p = l := by
  induction l with
  | nil => rfl
  | cons c cs ih =>
    simp only [List.takeWhile_cons, h c (List.mem_cons_self c cs), ih
      (fun x hx => h x (List.mem_cons_of_mem c hx)), if_true]

theorem dropWhile_all {α} {p : α → Bool} {l : List α} (h : ∀ c ∈ l, p c = true) :
    l.dropWhile p = [] := by
  induction l with
  | nil => rfl
  | cons c cs ih =>
    simp only [List.dropWhile_cons, h c (List.mem_cons_self c cs), if_true]
    exact ih (fun x hx => h x (List.mem_cons_of_mem c hx))

theorem takeWhile_append_all {α} {p : α → Bool} {h l : List α} (hh : ∀ c ∈ h, p c = true) :
    (h ++ l).takeWhile p = h ++ l.takeWhile p := by
  induction h with
  | nil => rfl
  | cons c cs ih =>
    simp only [List.cons_append, List.takeWhile_cons, hh c (List.mem_cons_self c cs), if_true]
    simp only [ih (fun x hx => hh x (List.mem_cons_of_mem c hx))]

theorem dropWhile_append_all {α} {p : α → Bool} {h l : List α} (hh : ∀ c ∈ h, p c = true) :
    (h ++ l).dropWhile p = l.dropWhile p := by
  induction h with
  | nil => rfl
  | cons c cs ih =>
    simp only [List.cons_append, List.dropWhile_cons, hh c (List.mem_cons_self c cs), if_true]
    exact ih (fun x hx => hh x (List.mem_cons_of_mem c hx))

theorem takeWhile_cons_false {α} {p : α → Bool} {c : α} {l : List α} (h : p c = false) :
    (c :: l).takeWhile p = [] := by
  simp [List.takeWhile_cons, h]

theorem dropWhile_cons_false {α} {p : α → Bool} {c : α} {l : List α} (h : p c = false) :
    (c :: l).dropWhile p = c :: l := by
  simp [List.dropWhile_cons, h]

theorem mem_takeWhile_pred {α} {p : α → Bool} {l : List α} {c : α}
    (h : c ∈ l.takeWhile p) : p c = true := by
  induction l with
  | nil => simp at h
  | cons x xs ih =>
    rw [List.takeWhile_cons] at h
    by_cases hx : p x = true
    · simp only [hx, if_true, List.mem_cons] at h
      rcases h with rfl | h
      · exact hx
      · exact ih h
    · simp only [Bool.not_eq_true] at hx
      simp [hx] at h

theorem mem_takeWhile_mem {α} {p : α → Bool} {l : List α} {c : α}
    (h : c ∈ l.takeWhile p) : c ∈ l := by
  induction l with
  | nil => simp at h
  | cons x xs ih =>
    rw [List.takeWhile_cons] at h
    by_cases hx : p x = true
    · simp only [hx, if_true, List.mem_cons] at h
      rcases h with rfl | h
      · exact List.mem_cons_self _ _
      · exact List.mem_cons_of_mem _ (ih h)
    · simp only [Bool.not_eq_true] at hx
      simp [hx] at h

theorem mem_dropWhile_mem {α} {p : α → Bool} {l : List α} {c : α}
    (h : c ∈ l.dropWhile p) : c ∈ l := by
  induction l with
  | nil => simp at h
  | cons x xs ih =>
    rw [List.dropWhile_cons] at h
    by_cases hx : p x = true
    · simp only [hx, if_true] at h
      exact List.mem_cons_of_mem _ (ih h)
    · simp only [Bool.not_eq_true] at hx
      simp only [hx, Bool.false_eq_true, if_false] at h
      exact h

/-! ### Character class facts -/

theorem hostChar_not_ws {c : Char} (h : isHostChar c = true) : isJsWhitespace c = false := by
  simp only [isHostChar, Bool.or_eq_true, decide_eq_true_eq] at h
  simp only [isJsWhitespace, Bool.or_eq_false_iff, decide_eq_false_iff_not]
  omega

theorem digit_hostChar {c : Char} (h : isDigitChar c = true) : isHostChar c = true := by
  simp only [isDigitChar, decide_eq_true_eq] at h
  simp only [isHostChar, Bool.or_eq_true, decide_eq_true_eq]
  omega

theorem alpha_hostChar {c : Char} (h : isAsciiAlpha c = true) : isHostChar c = true := by
  simp only [isAsciiAlpha, Bool.or_eq_true, decide_eq_true_eq] at h
  simp only [isHostChar, Bool.or_eq_true, decide_eq_true_eq]
  omega

theorem alpha_not_digit {c : Char} (h : isAsciiAlpha c = true) : isDigitChar c = false := by
  simp only [isAsciiAlpha, Bool.or_eq_true, decide_eq_true_eq] at h
  simp only [isDigitChar, decide_eq_false_iff_not]
  omega

/-- Two characters classified differently by a `Bool` class are distinct
(as a `==` fact). -/
theorem ne_char_of (f : Char → Bool) {c d : Char} (hc : f c = true) (hd : f d = false) :
    (c == d) = false := by
  by_cases h : c = d
  · subst h; rw [hc] at hd; exact absurd hd (by simp)
  · simp [beq_eq_false_iff_ne, h]

theorem hostChar_credChar {c : Char} (h : isHostChar c = true) : isCredChar c = true := by
  simp only [isCredChar, ne_char_of isHostChar h (by decide : isHostChar ':' = false),
    ne_char_of isHostChar h (by decide : isHostChar '@' = false), hostChar_not_ws h,
    Bool.or_false, Bool.not_false]

theorem digit_credChar {c : Char} (h : isDigitChar c = true) : isCredChar c = true :=
  hostChar_credChar (digit_hostChar h)

theorem alpha_credChar {c : Char} (h : isAsciiAlpha c = true) : isCredChar c = true :=
  hostChar_credChar (alpha_hostChar h)

theorem hostChar_ne_colon {c : Char} (h : isHostChar c = true) : (c == ':') = false :=
  ne_char_of isHostChar h (by decide)

theorem digit_not_ws {c : Char} (h : isDigitChar c = true) : isJsWhitespace c = false :=
  hostChar_not_ws (digit_hostChar h)

theorem alpha_not_ws {c : Char} (h : isAsciiAlpha c = true) : isJsWhitespace c = false :=
  hostChar_not_ws (alpha_hostChar h)

/-! ### Step lemmas for the matcher -/

theorem bool_ne_true {b : Bool} (h : b = false) : ¬ b = true := by simp [h]

theorem tryAlts_some {a rest l cap r r2 cred hst prt suf}
    (e1 : matchLitCI a l = some (cap, r)) (e2 : matchSep r = some r2)
    (e3 : matchBody r2 = some (cred, hst, prt, suf)) :
    tryAlts (a :: rest) l = some ⟨some cap, cred, hst, prt, suf⟩ := by
  simp [tryAlts, e1, e2, e3]

theorem tryAlts_litFail {a rest l} (e : matchLitCI a l = none) :
    tryAlts (a :: rest) l = tryAlts rest l := by
  simp [tryAlts, e]

theorem tryAlts_sepFail {a rest l cap r} (e1 : matchLitCI a l = some (cap, r))
    (e2 : matchSep r = none) : tryAlts (a :: rest) l = tryAlts rest l := by
  simp [tryAlts, e1, e2]

theorem tryAlts_bodyFail {a rest l cap r r2} (e1 : matchLitCI a l = some (cap, r))
    (e2 : matchSep r = some r2) (e3 : matchBody r2 = none) :
    tryAlts (a :: rest) l = tryAlts rest l := by
  simp [tryAlts, e1, e2, e3]

theorem matchAt_of_tryAlts {l m} (e : tryAlts schemeAlts l = some m) : matchAt l = some m := by
  simp [matchAt, e]

theorem matchAt_of_body {l cred hst prt suf} (e1 : tryAlts schemeAlts l = none)
    (e2 : matchBody l = some (cred, hst, prt, suf)) :
    matchAt l = some ⟨none, cred, hst, prt, suf⟩ := by
  simp [matchAt, e1, e2]

theorem matchAt_none_of {l} (e1 : tryAlts schemeAlts l = none) (e2 : matchBody l = none) :
    matchAt l = none := by
  simp [matchAt, e1, e2]

theorem jsSearch_of_matchAt {l m} (e : matchAt l = some m) : jsSearch l = some m := by
  cases l with
  | nil => rw [jsSearch, e]
  | cons c cs => rw [jsSearch, e]

theorem jsSearch_cons_none {c cs} (e : matchAt (c :: cs) = none) :
    jsSearch (c :: cs) = jsSearch cs := by
  rw [jsSearch, e]

/-! ### Matching the shape `host ++ ":" ++ rest` -/

theorem matchCred_hp {h p : List Char} (hhc : ∀ c ∈ h, isHostChar c = true)
    (hpc : ∀ c ∈ p, isCredChar c = true) :
    matchCred (h ++ ':' :: p) = none := by
  have hcred : ∀ c ∈ h, isCredChar c = true := fun c hc => hostChar_credChar (hhc c hc)
  have t1 : (h ++ ':' :: p).takeWhile isCredChar = h := by
    rw [takeWhile_append_all hcred, takeWhile_cons_false (by decide : isCredChar ':' = false),
      List.append_nil]
  have t2 : (h ++ ':' :: p).dropWhile isCredChar = ':' :: p := by
    rw [dropWhile_append_all hcred, dropWhile_cons_false (by decide : isCredChar ':' = false)]
  simp only [matchCred, t1, t2, takeWhile_all hpc, dropWhile_all hpc]
  by_cases hh : h = [] <;> by_cases hp0 : p = [] <;> simp [hh, hp0]

theorem matchHostPort_hp {h p : List Char} (hh : h ≠ []) (hhc : ∀ c ∈ h, isHostChar c = true)
    (hp : p ≠ []) (hpc : ∀ c ∈ p, isDigitChar c = true) (hl : p.length ≤ 5) :
    matchHostPort (h ++ ':' :: p) = some (h, p, none) := by
  have t1 : (h ++ ':' :: p).takeWhile isHostChar = h := by
    rw [takeWhile_append_all hhc, takeWhile_cons_false (by decide : isHostChar ':' = false),
      List.append_nil]
  have t2 : (h ++ ':' :: p).dropWhile isHostChar = ':' :: p := by
    rw [dropWhile_append_all hhc, dropWhile_cons_false (by decide : isHostChar ':' = false)]
  have t4 : (p.takeWhile isDigitChar).take 5 = p := by
    rw [takeWhile_all hpc, List.take_of_length_le hl]
  simp only [matchHostPort, t1, t2, t4]
  rw [if_neg hh]
  simp only [beq_self_eq_true, if_true]
  rw [if_neg hp, List.drop_length]
  rfl

theorem matchBody_hp {h p : List Char} (hh : h ≠ []) (hhc : ∀ c ∈ h, isHostChar c = true)
    (hp : p ≠ []) (hpc : ∀ c ∈ p, isDigitChar c = true) (hl : p.length ≤ 5) :
    matchBody (h ++ ':' :: p) = some (none, h, p, none) := by
  simp only [matchBody, matchCred_hp hhc (fun c hc => digit_credChar (hpc c hc)),
    matchHostPort_hp hh hhc hp hpc hl]

theorem matchLitCI_hp {p : List Char} :
    ∀ (a h : List Char), (∀ c ∈ a, isSchemeLitChar c = true) → (∀ c ∈ h, isHostChar c = true) →
    matchLitCI a (h ++ ':' :: p) = none ∨
    ∃ cap h2, matchLitCI a (h ++ ':' :: p) = some (cap, h2 ++ ':' :: p) ∧
      (∀ c ∈ h2, isHostChar c = true)
  | [], h, _, hh => Or.inr ⟨[], h, rfl, hh⟩
  | x :: xs, [], ha, _ => by
    left
    simp only [List.nil_append, matchLitCI]
    rw [if_neg]
    intro heq
    rw [show Char.toLower ':' = ':' from by decide] at heq
    subst heq
    exact absurd (ha ':' (List.mem_cons_self _ _)) (by decide)
  | x :: xs, hc :: h', ha, hh => by
    simp only [List.cons_append, matchLitCI, List.append_eq]
    by_cases hx : Char.toLower hc = x
    · rw [if_pos hx]
      rcases matchLitCI_hp xs h' (fun c hcm => ha c (List.mem_cons_of_mem _ hcm))
        (fun c hcm => hh c (List.mem_cons_of_mem _ hcm)) with hnone | ⟨cap, h2, heq, hh2⟩
      · rw [hnone]; left; rfl
      · rw [heq]; right; exact ⟨hc :: cap, h2, rfl, hh2⟩
    · rw [if_neg hx]; left; rfl

theorem matchSep_fail {h2 t : List Char} (hh2 : ∀ c ∈ h2, isHostChar c = true)
    (ht : ∀ c ∈ t, (c == '/') = false ∧ isJsWhitespace c = false) :
    matchSep (h2 ++ ':' :: t) = none := by
  cases h2 with
  | nil =>
    cases t with
    | nil => rfl
    | cons c2 t2 =>
      simp only [List.nil_append, matchSep, beq_self_eq_true, if_true]
      rw [if_neg (bool_ne_true (ht c2 (List.mem_cons_self _ _)).1)]
  | cons hc h2' =>
    have hhc := hh2 hc (List.mem_cons_self _ _)
    simp only [List.cons_append, matchSep]
    rw [if_neg (bool_ne_true (hostChar_ne_colon hhc))]
    rw [if_pos (takeWhile_cons_false (hostChar_not_ws hhc))]

theorem schemeAlts_chars : ∀ a ∈ schemeAlts, ∀ c ∈ a, isSchemeLitChar c = true := by decide

theorem tryAlts_none_of : ∀ (alts : List (List Char)) (l : List Char),
    (∀ a ∈ alts, ∀ cap r r2, matchLitCI a l = some (cap, r) → matchSep r = some r2 →
      matchBody r2 = none) →
    tryAlts alts l = none
  | [], _, _ => rfl
  | a :: rest, l, H => by
    have ih := tryAlts_none_of rest l (fun b hb => H b (List.mem_cons_of_mem _ hb))
    cases e1 : matchLitCI a l with
    | none => rw [tryAlts_litFail e1]; exact ih
    | some pr =>
      rcases pr with ⟨cap, r⟩
      cases e2 : matchSep r with
      | none => rw [tryAlts_sepFail e1 e2]; exact ih
      | some r2 =>
        rw [tryAlts_bodyFail e1 e2 (H a (List.mem_cons_self _ _) cap r r2 e1 e2)]
        exact ih

theorem tryAlts_none_hp {h t : List Char} (hhc : ∀ c ∈ h, isHostChar c = true)
    (ht : ∀ c ∈ t, (c == '/') = false ∧ isJsWhitespace c = false) :
    tryAlts schemeAlts (h ++ ':' :: t) = none := by
  apply tryAlts_none_of
  intro a ha cap r r2 e1 e2
  rcases matchLitCI_hp a h (schemeAlts_chars a ha) hhc with hnone | ⟨cap2, h2, heq, hh2⟩
  · rw [hnone] at e1; exact absurd e1 (by simp)
  · rw [heq] at e1
    simp only [Option.some.injEq, Prod.mk.injEq] at e1
    rcases e1 with ⟨-, e1r⟩
    rw [← e1r, matchSep_fail hh2 ht] at e2
    exact absurd e2 (by simp)

theorem digit_headFacts {t : List Char} (htc : ∀ c ∈ t, isDigitChar c = true) :
    ∀ c ∈ t, (c == '/') = false ∧ isJsWhitespace c = false := fun c hc =>
  ⟨ne_char_of isDigitChar (htc c hc) (by decide), digit_not_ws (htc c hc)⟩

theorem matchAt_hp {h p : List Char} (hh : h ≠ []) (hhc : ∀ c ∈ h, isHostChar c = true)
    (hp : p ≠ []) (hpc : ∀ c ∈ p, isDigitChar c = true) (hl : p.length ≤ 5) :
    matchAt (h ++ ':' :: p) = some ⟨none, none, h, p, none⟩ :=
  matchAt_of_body (tryAlts_none_hp hhc (digit_headFacts hpc)) (matchBody_hp hh hhc hp hpc hl)

/-! ### Trim, parseInt, finishParse -/

theorem jsTrim_eq_self {l : List Char} (h : ∀ c ∈ l, isJsWhitespace c = false) : jsTrim l = l := by
  have d1 : l.dropWhile isJsWhitespace = l := by
    cases l with
    | nil => rfl
    | cons c cs => exact dropWhile_cons_false (h c (List.mem_cons_self _ _))
  rw [jsTrim, d1]
  have d2 : l.reverse.dropWhile isJsWhitespace = l.reverse := by
    cases hr : l.reverse with
    | nil => rfl
    | cons c cs =>
      refine dropWhile_cons_false (h c ?_)
      have hm : c ∈ l.reverse := by rw [hr]; exact List.mem_cons_self _ _
      exact List.mem_reverse.mp hm
  rw [d2, List.reverse_reverse]

theorem jsParseInt_digits {p : List Char} (hp : p ≠ []) (hpc : ∀ c ∈ p, isDigitChar c = true) :
    jsParseInt p = some ((digitsToNat p : Nat) : Int) := by
  cases p with
  | nil => exact absurd rfl hp
  | cons c r =>
    have hc := hpc c (List.mem_cons_self _ _)
    have d1 : (c :: r).dropWhile isJsWhitespace = c :: r := dropWhile_cons_false (digit_not_ws hc)
    simp only [jsParseInt, d1]
    rw [if_neg (bool_ne_true (ne_char_of isDigitChar hc (by decide : isDigitChar '-' = false)))]
    rw [if_neg (bool_ne_true (ne_char_of isDigitChar hc (by decide : isDigitChar '+' = false)))]
    simp only [jsParseDigits, takeWhile_all hpc]
    rw [if_neg (by simp : ¬ (c :: r) = [])]

theorem finishParse_noCred {sch : Option (List Char)} {h p : List Char}
    (hp : p ≠ []) (hpc : ∀ c ∈ p, isDigitChar c = true)
    (hv : digitsToNat p ≤ 65535) (hd : allDots h = false) :
    finishParse ⟨sch, none, h, p, none⟩ =
      some ⟨typeOfRaw ((sch.getD []).map Char.toLower), String.mk h, String.mk p, "", ""⟩ := by
  simp only [finishParse, jsParseInt_digits hp hpc]
  rw [if_neg (by omega : ¬ (((digitsToNat p : Nat) : Int) < 0 ∨ ((digitsToNat p : Nat) : Int) > 65535))]
  rw [if_neg (bool_ne_true hd)]
  rfl

theorem smartParseProxy_eq_finish {s : String} {m : RawMatch} (h1 : jsTrim s.data ≠ [])
    (h2 : jsSearch (jsTrim s.data) = some m) :
    smartParseProxy s = finishParse m := by
  simp only [smartParseProxy, h2]
  rw [if_neg h1]

/-! ### Bare `host:port` parsing (claim C4) -/

/-- C4: for every valid host (non-empty, in the alphabet `[A-Za-z0-9.-]`,
not dot-only, as §3 of the spec defines a valid host) and every port
written as 1-5 digits whose value is at most 65535, parsing the bare
string `host:port` succeeds with scheme `http`, that host, that port,
and empty credentials. -/
theorem spec_c4 (h p : List Char) (hh : h ≠ []) (hhc : ∀ c ∈ h, isHostChar c = true)
    (hd : allDots h = false) (hp : p ≠ []) (hpc : ∀ c ∈ p, isDigitChar c = true)
    (hl : p.length ≤ 5) (hv : digitsToNat p ≤ 65535) :
    smartParseProxy (String.mk (h ++ ':' :: p)) =
      some ⟨"http", String.mk h, String.mk p, "", ""⟩ := by
  have hws : ∀ c ∈ h ++ ':' :: p, isJsWhitespace c = false := by
    intro c hc
    rcases List.mem_append.mp hc with hc | hc
    · exact hostChar_not_ws (hhc c hc)
    · rcases List.mem_cons.mp hc with rfl | hc
      · decide
      · exact digit_not_ws (hpc c hc)
  have htrim : jsTrim (String.mk (h ++ ':' :: p)).data = h ++ ':' :: p := jsTrim_eq_self hws
  have hne : jsTrim (String.mk (h ++ ':' :: p)).data ≠ [] := by
    rw [htrim]; cases h <;> simp
  have hsearch : jsSearch (jsTrim (String.mk (h ++ ':' :: p)).data) =
      some ⟨none, none, h, p, none⟩ := by
    rw [htrim]; exact jsSearch_of_matchAt (matchAt_hp hh hhc hp hpc hl)
  rw [smartParseProxy_eq_finish hne hsearch, finishParse_noCred hp hpc hv hd]
  rfl

/-- Witness for C4 at a concrete input. -/
theorem spec_c4_witness :
    smartParseProxy "example.com:8080" = some ⟨"http", "example.com", "8080", "", ""⟩ := by
  have h := spec_c4 "example.com".data "8080".data (by decide) (by decide) (by decide)
    (by decide) (by decide) (by decide) (by decide)
  have e1 : String.mk ("example.com".data ++ ':' :: "8080".data) = "example.com:8080" := by decide
  rw [e1] at h
  exact h

/-! ### Scheme-prefixed forms (claim C5) -/

theorem schemeAlts_eq : schemeAlts =
    "http".data :: "https".data :: "socks4".data :: "socks5".data :: "socks5h".data :: [] := rfl

theorem matchAt_http {h p : List Char} (hh : h ≠ []) (hhc : ∀ c ∈ h, isHostChar c = true)
    (hp : p ≠ []) (hpc : ∀ c ∈ p, isDigitChar c = true) (hl : p.length ≤ 5) :
    matchAt ("http://".data ++ (h ++ ':' :: p)) = some ⟨some "http".data, none, h, p, none⟩ := by
  have hb := matchBody_hp hh hhc hp hpc hl
  apply matchAt_of_tryAlts
  rw [schemeAlts_eq]
  exact tryAlts_some
    (rfl : matchLitCI "http".data ("http://".data ++ (h ++ ':' :: p)) =
      some ("http".data, ':' :: '/' :: '/' :: (h ++ ':' :: p)))
    (rfl : matchSep (':' :: '/' :: '/' :: (h ++ ':' :: p)) = some (h ++ ':' :: p)) hb

theorem matchAt_https {h p : List Char} (hh : h ≠ []) (hhc : ∀ c ∈ h, isHostChar c = true)
    (hp : p ≠ []) (hpc : ∀ c ∈ p, isDigitChar c = true) (hl : p.length ≤ 5) :
    matchAt ("https://".data ++ (h ++ ':' :: p)) = some ⟨some "https".data, none, h, p, none⟩ := by
  have hb := matchBody_hp hh hhc hp hpc hl
  apply matchAt_of_tryAlts
  rw [schemeAlts_eq]
  rw [tryAlts_sepFail
    (rfl : matchLitCI "http".data ("https://".data ++ (h ++ ':' :: p)) =
      some ("http".data, 's' :: ':' :: '/' :: '/' :: (h ++ ':' :: p)))
    (rfl : matchSep ('s' :: ':' :: '/' :: '/' :: (h ++ ':' :: p)) = none)]
  exact tryAlts_some
    (rfl : matchLitCI "https".data ("https://".data ++ (h ++ ':' :: p)) =
      some ("https".data, ':' :: '/' :: '/' :: (h ++ ':' :: p)))
    (rfl : matchSep (':' :: '/' :: '/' :: (h ++ ':' :: p)) = some (h ++ ':' :: p)) hb

theorem matchAt_socks4 {h p : List Char} (hh : h ≠ []) (hhc : ∀ c ∈ h, isHostChar c = true)
    (hp : p ≠ []) (hpc : ∀ c ∈ p, isDigitChar c = true) (hl : p.length ≤ 5) :
    matchAt ("socks4://".data ++ (h ++ ':' :: p)) = some ⟨some "socks4".data, none, h, p, none⟩ := by
  have hb := matchBody_hp hh hhc hp hpc hl
  apply matchAt_of_tryAlts
  rw [schemeAlts_eq]
  rw [tryAlts_litFail (rfl : matchLitCI "http".data ("socks4://".data ++ (h ++ ':' :: p)) = none)]
  rw [tryAlts_litFail (rfl : matchLitCI "https".data ("socks4://".data ++ (h ++ ':' :: p)) = none)]
  exact tryAlts_some
    (rfl : matchLitCI "socks4".data ("socks4://".data ++ (h ++ ':' :: p)) =
      some ("socks4".data, ':' :: '/' :: '/' :: (h ++ ':' :: p)))
    (rfl : matchSep (':' :: '/' :: '/' :: (h ++ ':' :: p)) = some (h ++ ':' :: p)) hb

theorem matchAt_socks5 {h p : List Char} (hh : h ≠ []) (hhc : ∀ c ∈ h, isHostChar c = true)
    (hp : p ≠ []) (hpc : ∀ c ∈ p, isDigitChar c = true) (hl : p.length ≤ 5) :
    matchAt ("socks5://".data ++ (h ++ ':' :: p)) = some ⟨some "socks5".data, none, h, p, none⟩ := by
  have hb := matchBody_hp hh hhc hp hpc hl
  apply matchAt_of_tryAlts
  rw [schemeAlts_eq]
  rw [tryAlts_litFail (rfl : matchLitCI "http".data ("socks5://".data ++ (h ++ ':' :: p)) = none)]
  rw [tryAlts_litFail (rfl : matchLitCI "https".data ("socks5://".data ++ (h ++ ':' :: p)) = none)]
  rw [tryAlts_litFail (rfl : matchLitCI "socks4".data ("socks5://".data ++ (h ++ ':' :: p)) = none)]
  exact tryAlts_some
    (rfl : matchLitCI "socks5".data ("socks5://".data ++ (h ++ ':' :: p)) =
      some ("socks5".data, ':' :: '/' :: '/' :: (h ++ ':' :: p)))
    (rfl : matchSep (':' :: '/' :: '/' :: (h ++ ':' :: p)) = some (h ++ ':' :: p)) hb

theorem matchAt_socks5h {h p : List Char} (hh : h ≠ []) (hhc : ∀ c ∈ h, isHostChar c = true)
    (hp : p ≠ []) (hpc : ∀ c ∈ p, isDigitChar c = true) (hl : p.length ≤ 5) :
    matchAt ("socks5h://".data ++ (h ++ ':' :: p)) = some ⟨some "socks5h".data, none, h, p, none⟩ := by
  have hb := matchBody_hp hh hhc hp hpc hl
  apply matchAt_of_tryAlts
  rw [schemeAlts_eq]
  rw [tryAlts_litFail (rfl : matchLitCI "http".data ("socks5h://".data ++ (h ++ ':' :: p)) = none)]
  rw [tryAlts_litFail (rfl : matchLitCI "https".data ("socks5h://".data ++ (h ++ ':' :: p)) = none)]
  rw [tryAlts_litFail (rfl : matchLitCI "socks4".data ("socks5h://".data ++ (h ++ ':' :: p)) = none)]
  rw [tryAlts_sepFail
    (rfl : matchLitCI "socks5".data ("socks5h://".data ++ (h ++ ':' :: p)) =
      some ("socks5".data, 'h' :: ':' :: '/' :: '/' :: (h ++ ':' :: p)))
    (rfl : matchSep ('h' :: ':' :: '/' :: '/' :: (h ++ ':' :: p)) = none)]
  exact tryAlts_some
    (rfl : matchLitCI "socks5h".data ("socks5h://".data ++ (h ++ ':' :: p)) =
      some ("socks5h".data, ':' :: '/' :: '/' :: (h ++ ':' :: p)))
    (rfl : matchSep (':' :: '/' :: '/' :: (h ++ ':' :: p)) = some (h ++ ':' :: p)) hb

/-- Shared assembly for the scheme-prefixed families. -/
theorem smartParse_scheme {pre sch h p : List Char} {ty : String}
    (hpre : ∀ c ∈ pre, isJsWhitespace c = false)
    (hma : matchAt (pre ++ (h ++ ':' :: p)) = some ⟨some sch, none, h, p, none⟩)
    (hty : typeOfRaw (sch.map Char.toLower) = ty)
    (hhc : ∀ c ∈ h, isHostChar c = true) (hd : allDots h = false)
    (hp : p ≠ []) (hpc : ∀ c ∈ p, isDigitChar c = true) (hv : digitsToNat p ≤ 65535) :
    smartParseProxy (String.mk (pre ++ (h ++ ':' :: p))) =
      some ⟨ty, String.mk h, String.mk p, "", ""⟩ := by
  have hws : ∀ c ∈ pre ++ (h ++ ':' :: p), isJsWhitespace c = false := by
    intro c hc
    rcases List.mem_append.mp hc with hc | hc
    · exact hpre c hc
    · rcases List.mem_append.mp hc with hc | hc
      · exact hostChar_not_ws (hhc c hc)
      · rcases List.mem_cons.mp hc with rfl | hc
        · decide
        · exact digit_not_ws (hpc c hc)
  have htrim : jsTrim (String.mk (pre ++ (h ++ ':' :: p))).data = pre ++ (h ++ ':' :: p) :=
    jsTrim_eq_self hws
  have hne : jsTrim (String.mk (pre ++ (h ++ ':' :: p))).data ≠ [] := by
    rw [htrim]
    intro e
    rcases List.append_eq_nil.mp e with ⟨-, e2⟩
    rcases List.append_eq_nil.mp e2 with ⟨-, e3⟩
    exact absurd e3 (by simp)
  have hsearch : jsSearch (jsTrim (String.mk (pre ++ (h ++ ':' :: p))).data) =
      some ⟨some sch, none, h, p, none⟩ := by
    rw [htrim]; exact jsSearch_of_matchAt hma
  rw [smartParseProxy_eq_finish hne hsearch, finishParse_noCred hp hpc hv hd]
  simp only [Option.getD_some, hty]

/-- C5: scheme tokens are normalized: `http`, `https`, `socks4`,
`socks5`, `socks5h` with `scheme://host:port` resolve to `http`, `http`,
`socks4`, `socks5`, `socks5` respectively (for every valid host and
in-range port), and the whitespace-separated form
`"socks5 203.0.113.5:1080:alice:secret"` parses to scheme `socks5`,
host `203.0.113.5`, port `1080`, username `alice`, password `secret`. -/
theorem spec_c5 :
    (∀ h p : List Char, h ≠ [] → (∀ c ∈ h, isHostChar c = true) → allDots h = false →
      p ≠ [] → (∀ c ∈ p, isDigitChar c = true) → p.length ≤ 5 → digitsToNat p ≤ 65535 →
      smartParseProxy (String.mk ("http://".data ++ (h ++ ':' :: p))) =
          some ⟨"http", String.mk h, String.mk p, "", ""⟩ ∧
      smartParseProxy (String.mk ("https://".data ++ (h ++ ':' :: p))) =
          some ⟨"http", String.mk h, String.mk p, "", ""⟩ ∧
      smartParseProxy (String.mk ("socks4://".data ++ (h ++ ':' :: p))) =
          some ⟨"socks4", String.mk h, String.mk p, "", ""⟩ ∧
      smartParseProxy (String.mk ("socks5://".data ++ (h ++ ':' :: p))) =
          some ⟨"socks5", String.mk h, String.mk p, "", ""⟩ ∧
      smartParseProxy (String.mk ("socks5h://".data ++ (h ++ ':' :: p))) =
          some ⟨"socks5", String.mk h, String.mk p, "", ""⟩) ∧
    smartParseProxy "socks5 203.0.113.5:1080:alice:secret" =
      some ⟨"socks5", "203.0.113.5", "1080", "alice", "secret"⟩ := by
  constructor
  · intro h p hh hhc hd hp hpc hl hv
    refine ⟨?_, ?_, ?_, ?_, ?_⟩
    · exact smartParse_scheme (by decide) (matchAt_http hh hhc hp hpc hl) (by decide) hhc hd hp hpc hv
    · exact smartParse_scheme (by decide) (matchAt_https hh hhc hp hpc hl) (by decide) hhc hd hp hpc hv
    · exact smartParse_scheme (by decide) (matchAt_socks4 hh hhc hp hpc hl) (by decide) hhc hd hp hpc hv
    · exact smartParse_scheme (by decide) (matchAt_socks5 hh hhc hp hpc hl) (by decide) hhc hd hp hpc hv
    · exact smartParse_scheme (by decide) (matchAt_socks5h hh hhc hp hpc hl) (by decide) hhc hd hp hpc hv
  · decide

/-- Witness for C5 at a concrete input. -/
theorem spec_c5_witness :
    smartParseProxy "socks5h://example.com:1080" =
      some ⟨"socks5", "example.com", "1080", "", ""⟩ := by
  have h := (spec_c5.1 "example.com".data "1080".data (by decide) (by decide) (by decide)
    (by decide) (by decide) (by decide) (by decide)).2.2.2.2
  have e1 : String.mk ("socks5h://".data ++ ("example.com".data ++ ':' :: "1080".data)) =
      "socks5h://example.com:1080" := by decide
  rw [e1] at h
  exact h

/-! ### Failing searches (claim C3) -/

theorem smartParse_of_search_none {s : String} (h2 : jsSearch (jsTrim s.data) = none) :
    smartParseProxy s = none := by
  by_cases h1 : jsTrim s.data = []
  · simp [smartParseProxy, h1]
  · simp only [smartParseProxy, h2]
    rw [if_neg h1]

theorem finishParse_overflow {sch cred suf} {h p : List Char}
    (hp : p ≠ []) (hpc : ∀ c ∈ p, isDigitChar c = true) (hv : 65535 < digitsToNat p) :
    finishParse ⟨sch, cred, h, p, suf⟩ = none := by
  simp only [finishParse, jsParseInt_digits hp hpc]
  rw [if_pos (by omega :
    ((digitsToNat p : Nat) : Int) < 0 ∨ ((digitsToNat p : Nat) : Int) > 65535)]

theorem matchLitCI_append : ∀ (a l cap r : List Char), matchLitCI a l = some (cap, r) → l = cap ++ r
  | [], l, cap, r, e => by
    simp only [matchLitCI, Option.some.injEq, Prod.mk.injEq] at e
    rcases e with ⟨rfl, rfl⟩
    rfl
  | _ :: _, [], _, _, e => by simp [matchLitCI] at e
  | p :: ps, c :: cs, cap, r, e => by
    simp only [matchLitCI] at e
    by_cases hx : Char.toLower c = p
    · rw [if_pos hx] at e
      cases e2 : matchLitCI ps cs with
      | none => rw [e2] at e; simp at e
      | some pr =>
        rcases pr with ⟨cap2, r2⟩
        rw [e2] at e
        simp only [Option.some.injEq, Prod.mk.injEq] at e
        rcases e with ⟨rfl, rfl⟩
        have ih := matchLitCI_append ps cs cap2 r2 e2
        simp [ih]
    · rw [if_neg hx] at e; simp at e

theorem matchSep_alpha {r : List Char} (h : ∀ c ∈ r, isAsciiAlpha c = true) :
    matchSep r = none := by
  cases r with
  | nil => rfl
  | cons c cs =>
    have hc := h c (List.mem_cons_self _ _)
    simp only [matchSep]
    rw [if_neg (bool_ne_true (ne_char_of isAsciiAlpha hc (by decide : isAsciiAlpha ':' = false)))]
    rw [if_pos (takeWhile_cons_false (alpha_not_ws hc))]

theorem matchBody_alpha {t : List Char} (h : ∀ c ∈ t, isAsciiAlpha c = true) :
    matchBody t = none := by
  cases t with
  | nil => rfl
  | cons c cs =>
    have hcred : ∀ x ∈ c :: cs, isCredChar x = true := fun x hx => alpha_credChar (h x hx)
    have hhost : ∀ x ∈ c :: cs, isHostChar x = true := fun x hx => alpha_hostChar (h x hx)
    have hCred : matchCred (c :: cs) = none := by
      simp only [matchCred, takeWhile_all hcred, dropWhile_all hcred]
      simp
    have hHP : matchHostPort (c :: cs) = none := by
      simp only [matchHostPort, takeWhile_all hhost, dropWhile_all hhost]
      simp
    simp only [matchBody, hCred, hHP]

theorem tryAlts_none_alpha {t : List Char} (h : ∀ c ∈ t, isAsciiAlpha c = true) :
    tryAlts schemeAlts t = none := by
  apply tryAlts_none_of
  intro a ha cap r r2 e1 e2
  have ht : t = cap ++ r := matchLitCI_append a t cap r e1
  have hsep : matchSep r = none := by
    apply matchSep_alpha
    intro c hc
    apply h c
    rw [ht]
    exact List.mem_append_right cap hc
  rw [hsep] at e2
  exact absurd e2 (by simp)

theorem jsSearch_alpha : ∀ (t : List Char), (∀ c ∈ t, isAsciiAlpha c = true) → jsSearch t = none
  | [], _ => rfl
  | c :: cs, h => by
    rw [jsSearch_cons_none (matchAt_none_of (tryAlts_none_alpha h) (matchBody_alpha h))]
    exact jsSearch_alpha cs (fun x hx => h x (List.mem_cons_of_mem _ hx))

theorem alpha_headFacts {t : List Char} (htc : ∀ c ∈ t, isAsciiAlpha c = true) :
    ∀ c ∈ t, (c == '/') = false ∧ isJsWhitespace c = false := fun c hc =>
  ⟨ne_char_of isAsciiAlpha (htc c hc) (by decide), alpha_not_ws (htc c hc)⟩

theorem matchBody_hp_alpha {h t : List Char} (hhc : ∀ c ∈ h, isHostChar c = true)
    (ht : t ≠ []) (htc : ∀ c ∈ t, isAsciiAlpha c = true) :
    matchBody (h ++ ':' :: t) = none := by
  have hCred : matchCred (h ++ ':' :: t) = none :=
    matchCred_hp hhc (fun c hc => alpha_credChar (htc c hc))
  have hHP : matchHostPort (h ++ ':' :: t) = none := by
    by_cases hh : h = []
    · subst hh
      simp only [List.nil_append, matchHostPort]
      rw [if_pos (takeWhile_cons_false (by decide : isHostChar ':' = false))]
    · have t1 : (h ++ ':' :: t).takeWhile isHostChar = h := by
        rw [takeWhile_append_all hhc, takeWhile_cons_false (by decide : isHostChar ':' = false),
          List.append_nil]
      have t2 : (h ++ ':' :: t).dropWhile isHostChar = ':' :: t := by
        rw [dropWhile_append_all hhc, dropWhile_cons_false (by decide : isHostChar ':' = false)]
      simp only [matchHostPort, t1, t2]
      rw [if_neg hh]
      simp only [beq_self_eq_true, if_true]
      cases t with
      | nil => exact absurd rfl ht
      | cons c cs =>
        rw [takeWhile_cons_false (alpha_not_digit (htc c (List.mem_cons_self _ _)))]
        simp
  simp only [matchBody, hCred, hHP]

theorem jsSearch_hp_alpha : ∀ (h : List Char) {t : List Char},
    (∀ c ∈ h, isHostChar c = true) → t ≠ [] → (∀ c ∈ t, isAsciiAlpha c = true) →
    jsSearch (h ++ ':' :: t) = none
  | [], t, _, ht, htc => by
    have hAt : matchAt (([] : List Char) ++ ':' :: t) = none :=
      matchAt_none_of (tryAlts_none_hp (fun c hc => absurd hc (by simp)) (alpha_headFacts htc))
        (matchBody_hp_alpha (fun c hc => absurd hc (by simp)) ht htc)
    rw [List.nil_append] at hAt ⊢
    rw [jsSearch_cons_none hAt]
    exact jsSearch_alpha t htc
  | hc :: h', t, hhc, ht, htc => by
    have hAt : matchAt ((hc :: h') ++ ':' :: t) = none :=
      matchAt_none_of (tryAlts_none_hp hhc (alpha_headFacts htc))
        (matchBody_hp_alpha hhc ht htc)
    rw [List.cons_append] at hAt ⊢
    rw [jsSearch_cons_none hAt]
    exact jsSearch_hp_alpha h' (fun c hcm => hhc c (List.mem_cons_of_mem _ hcm)) ht htc

/-- C3: an input `host:port` whose port is written as 1-5 digits but
whose value exceeds 65535 yields no match, an input `host:token` whose
post-colon token is alphabetic (non-numeric) yields no match, and in
particular `"192.168.1.1:99999"` yields no match. -/
theorem spec_c3 :
    (∀ h p : List Char, h ≠ [] → (∀ c ∈ h, isHostChar c = true) →
      p ≠ [] → (∀ c ∈ p, isDigitChar c = true) → p.length ≤ 5 → 65535 < digitsToNat p →
      smartParseProxy (String.mk (h ++ ':' :: p)) = none) ∧
    (∀ h t : List Char, h ≠ [] → (∀ c ∈ h, isHostChar c = true) →
      t ≠ [] → (∀ c ∈ t, isAsciiAlpha c = true) →
      smartParseProxy (String.mk (h ++ ':' :: t)) = none) ∧
    smartParseProxy "192.168.1.1:99999" = none := by
  refine ⟨?_, ?_, by decide⟩
  · intro h p hh hhc hp hpc hl hv
    have hws : ∀ c ∈ h ++ ':' :: p, isJsWhitespace c = false := by
      intro c hc
      rcases List.mem_append.mp hc with hc | hc
      · exact hostChar_not_ws (hhc c hc)
      · rcases List.mem_cons.mp hc with rfl | hc
        · decide
        · exact digit_not_ws (hpc c hc)
    have htrim : jsTrim (String.mk (h ++ ':' :: p)).data = h ++ ':' :: p := jsTrim_eq_self hws
    have hne : jsTrim (String.mk (h ++ ':' :: p)).data ≠ [] := by
      rw [htrim]; cases h <;> simp
    have hsearch : jsSearch (jsTrim (String.mk (h ++ ':' :: p)).data) =
        some ⟨none, none, h, p, none⟩ := by
      rw [htrim]; exact jsSearch_of_matchAt (matchAt_hp hh hhc hp hpc hl)
    rw [smartParseProxy_eq_finish hne hsearch]
    exact finishParse_overflow hp hpc hv
  · intro h t hh hhc ht htc
    apply smartParse_of_search_none
    have hws : ∀ c ∈ h ++ ':' :: t, isJsWhitespace c = false := by
      intro c hc
      rcases List.mem_append.mp hc with hc | hc
      · exact hostChar_not_ws (hhc c hc)
      · rcases List.mem_cons.mp hc with rfl | hc
        · decide
        · exact alpha_not_ws (htc c hc)
    rw [jsTrim_eq_self hws]
    exact jsSearch_hp_alpha h hhc ht htc

/-- Witness for C3 at concrete inputs. -/
theorem spec_c3_witness :
    smartParseProxy "1.2.3.4:70000" = none ∧ smartParseProxy "192.168.1.1:abc" = none := by
  constructor
  · have h := spec_c3.1 "1.2.3.4".data "70000".data (by decide) (by decide) (by decide)
      (by decide) (by decide) (by decide)
    have e1 : String.mk ("1.2.3.4".data ++ ':' :: "70000".data) = "1.2.3.4:70000" := by decide
    rw [e1] at h
    exact h
  · have h := spec_c3.2.1 "192.168.1.1".data "abc".data (by decide) (by decide) (by decide)
      (by decide)
    have e1 : String.mk ("192.168.1.1".data ++ ':' :: "abc".data) = "192.168.1.1:abc" := by decide
    rw [e1] at h
    exact h

/-! ### Invariants of successful matches -/

theorem matchSuffix_inv {l u p : List Char} (e : matchSuffix l = some (u, p)) :
    u ≠ [] ∧ p ≠ [] ∧ (∀ c ∈ u, isSuffixChar c = true) ∧ (∀ c ∈ p, isSuffixChar c = true) := by
  unfold matchSuffix at e
  split at e
  · exact absurd e (by simp)
  · split at e
    · split at e
      · exact absurd e (by simp)
      · split at e
        · split at e
          · split at e
            · exact absurd e (by simp)
            · simp only [Option.some.injEq, Prod.mk.injEq] at e
              obtain ⟨rfl, rfl⟩ := e
              refine ⟨by assumption, by assumption, ?_, ?_⟩
              · exact fun c hc => mem_takeWhile_pred hc
              · exact fun c hc => mem_takeWhile_pred hc
          · exact absurd e (by simp)
        · exact absurd e (by simp)
    · exact absurd e (by simp)

theorem matchCred_inv {l u pw r : List Char} (e : matchCred l = some (u, pw, r)) :
    u ≠ [] ∧ pw ≠ [] := by
  unfold matchCred at e
  split at e
  · exact absurd e (by simp)
  · split at e
    · split at e
      · split at e
        · exact absurd e (by simp)
        · split at e
          · split at e
            · simp only [Option.some.injEq, Prod.mk.injEq] at e
              obtain ⟨rfl, rfl, rfl⟩ := e
              exact ⟨by assumption, by assumption⟩
            · exact absurd e (by simp)
          · exact absurd e (by simp)
      · exact absurd e (by simp)
    · exact absurd e (by simp)

theorem matchHostPort_inv {l hst prt : List Char} {suf : Option (List Char × List Char)}
    (e : matchHostPort l = some (hst, prt, suf)) :
    hst ≠ [] ∧ (∀ c ∈ hst, isHostChar c = true) ∧ prt ≠ [] ∧
    (∀ c ∈ prt, isDigitChar c = true) ∧ prt.length ≤ 5 ∧
    (∀ u pw, suf = some (u, pw) → u ≠ [] ∧ pw ≠ []) := by
  unfold matchHostPort at e
  split at e
  · exact absurd e (by simp)
  · split at e
    · split at e
      · split at e
        · exact absurd e (by simp)
        · simp only [Option.some.injEq, Prod.mk.injEq] at e
          obtain ⟨rfl, rfl, rfl⟩ := e
          refine ⟨by assumption, fun c hc => mem_takeWhile_pred hc, by assumption, ?_, ?_, ?_⟩
          · exact fun c hc => mem_takeWhile_pred (List.take_subset 5 _ hc)
          · rw [List.length_take]
            exact Nat.min_le_left _ _
          · intro u pw hsuf
            rcases matchSuffix_inv hsuf with ⟨h1, h2, -, -⟩
            exact ⟨h1, h2⟩
      · exact absurd e (by simp)
    · exact absurd e (by simp)

theorem matchBody_inv {l : List Char} {cred : Option (List Char × List Char)}
    {hst prt : List Char} {suf : Option (List Char × List Char)}
    (e : matchBody l = some (cred, hst, prt, suf)) :
    (∀ u pw, cred = some (u, pw) → u ≠ [] ∧ pw ≠ []) ∧ hst ≠ [] ∧
    (∀ c ∈ hst, isHostChar c = true) ∧ prt ≠ [] ∧ (∀ c ∈ prt, isDigitChar c = true) ∧
    prt.length ≤ 5 ∧ (∀ u pw, suf = some (u, pw) → u ≠ [] ∧ pw ≠ []) := by
  cases e1 : matchCred l with
  | none =>
    simp only [matchBody, e1] at e
    cases e2 : matchHostPort l with
    | none => simp only [e2] at e; exact absurd e (by simp)
    | some tpl =>
      rcases tpl with ⟨hst2, prt2, suf2⟩
      simp only [e2, Option.some.injEq, Prod.mk.injEq] at e
      obtain ⟨rfl, rfl, rfl, rfl⟩ := e
      rcases matchHostPort_inv e2 with ⟨a1, a2, a3, a4, a5, a6⟩
      exact ⟨fun u pw hc => absurd hc (by simp), a1, a2, a3, a4, a5, a6⟩
  | some tpl =>
    rcases tpl with ⟨u, pw, r⟩
    simp only [matchBody, e1] at e
    cases e2 : matchHostPort r with
    | some tpl2 =>
      rcases tpl2 with ⟨hst2, prt2, suf2⟩
      simp only [e2, Option.some.injEq, Prod.mk.injEq] at e
      obtain ⟨rfl, rfl, rfl, rfl⟩ := e
      rcases matchHostPort_inv e2 with ⟨a1, a2, a3, a4, a5, a6⟩
      rcases matchCred_inv e1 with ⟨b1, b2⟩
      refine ⟨?_, a1, a2, a3, a4, a5, a6⟩
      intro u2 pw2 hc
      simp only [Option.some.injEq, Prod.mk.injEq] at hc
      obtain ⟨rfl, rfl⟩ := hc
      exact ⟨b1, b2⟩
    | none =>
      simp only [e2] at e
      cases e3 : matchHostPort l with
      | none => simp only [e3] at e; exact absurd e (by simp)
      | some tpl3 =>
        rcases tpl3 with ⟨hst3, prt3, suf3⟩
        simp only [e3, Option.some.injEq, Prod.mk.injEq] at e
        obtain ⟨rfl, rfl, rfl, rfl⟩ := e
        rcases matchHostPort_inv e3 with ⟨a1, a2, a3, a4, a5, a6⟩
        exact ⟨fun u2 pw2 hc => absurd hc (by simp), a1, a2, a3, a4, a5, a6⟩

theorem tryAlts_inv : ∀ (alts : List (List Char)) (l : List Char) (m : RawMatch),
    tryAlts alts l = some m →
    (∀ u pw, m.cred = some (u, pw) → u ≠ [] ∧ pw ≠ []) ∧ m.host ≠ [] ∧
    (∀ c ∈ m.host, isHostChar c = true) ∧ m.port ≠ [] ∧
    (∀ c ∈ m.port, isDigitChar c = true) ∧ m.port.length ≤ 5 ∧
    (∀ u pw, m.suffix = some (u, pw) → u ≠ [] ∧ pw ≠ [])
  | [], _, _, e => absurd e (by simp [tryAlts])
  | a :: rest, l, m, e => by
    revert e
    cases e1 : matchLitCI a l with
    | none =>
      rw [tryAlts_litFail e1]
      exact fun e => tryAlts_inv rest l m e
    | some pr =>
      rcases pr with ⟨cap, r⟩
      cases e2 : matchSep r with
      | none =>
        rw [tryAlts_sepFail e1 e2]
        exact fun e => tryAlts_inv rest l m e
      | some r2 =>
        cases e3 : matchBody r2 with
        | none =>
          rw [tryAlts_bodyFail e1 e2 e3]
          exact fun e => tryAlts_inv rest l m e
        | some body =>
          rcases body with ⟨cred, hst, prt, suf⟩
          rw [tryAlts_some e1 e2 e3]
          intro e
          simp only [Option.some.injEq] at e
          subst e
          exact matchBody_inv e3

theorem matchAt_inv {l : List Char} {m : RawMatch} (e : matchAt l = some m) :
    (∀ u pw, m.cred = some (u, pw) → u ≠ [] ∧ pw ≠ []) ∧ m.host ≠ [] ∧
    (∀ c ∈ m.host, isHostChar c = true) ∧ m.port ≠ [] ∧
    (∀ c ∈ m.port, isDigitChar c = true) ∧ m.port.length ≤ 5 ∧
    (∀ u pw, m.suffix = some (u, pw) → u ≠ [] ∧ pw ≠ []) := by
  revert e
  unfold matchAt
  cases e1 : tryAlts schemeAlts l with
  | some m2 =>
    intro e
    simp only [Option.some.injEq] at e
    subst e
    exact tryAlts_inv _ _ _ e1
  | none =>
    cases e2 : matchBody l with
    | none => intro e; exact absurd e (by simp)
    | some body =>
      rcases body with ⟨cred, hst, prt, suf⟩
      intro e
      simp only [Option.some.injEq] at e
      subst e
      exact matchBody_inv e2

theorem jsSearch_inv : ∀ (l : List Char) (m : RawMatch), jsSearch l = some m →
    (∀ u pw, m.cred = some (u, pw) → u ≠ [] ∧ pw ≠ []) ∧ m.host ≠ [] ∧
    (∀ c ∈ m.host, isHostChar c = true) ∧ m.port ≠ [] ∧
    (∀ c ∈ m.port, isDigitChar c = true) ∧ m.port.length ≤ 5 ∧
    (∀ u pw, m.suffix = some (u, pw) → u ≠ [] ∧ pw ≠ [])
  | [], _, e => matchAt_inv e
  | c :: cs, m, e => by
    revert e
    cases e1 : matchAt (c :: cs) with
    | some m2 =>
      rw [jsSearch_of_matchAt e1]
      intro e
      simp only [Option.some.injEq] at e
      subst e
      exact matchAt_inv e1
    | none =>
      rw [jsSearch_cons_none e1]
      exact fun e => jsSearch_inv cs m e

theorem smartParseProxy_inv {s : String} {d : ProxyDescriptor}
    (e : smartParseProxy s = some d) :
    ∃ m : RawMatch, jsSearch (jsTrim s.data) = some m ∧ finishParse m = some d := by
  revert e
  unfold smartParseProxy
  by_cases h1 : jsTrim s.data = []
  · rw [if_pos h1]; intro e; exact absurd e (by simp)
  · rw [if_neg h1]
    cases e1 : jsSearch (jsTrim s.data) with
    | none => intro e; exact absurd e (by simp)
    | some m => intro e; exact ⟨m, rfl, e⟩

theorem finishParse_inv {m : RawMatch} {d : ProxyDescriptor} (e : finishParse m = some d) :
    d.host = String.mk m.host ∧ d.port = String.mk m.port ∧
    d.user = String.mk (jsOr (m.cred.map Prod.fst) (m.suffix.map Prod.fst)) ∧
    d.pass = String.mk (jsOr (m.cred.map Prod.snd) (m.suffix.map Prod.snd)) ∧
    allDots m.host = false ∧
    ∃ v : Int, jsParseInt m.port = some v ∧ 0 ≤ v ∧ v ≤ 65535 := by
  revert e
  unfold finishParse
  cases e1 : jsParseInt m.port with
  | none => intro e; exact absurd e (by simp)
  | some v =>
    dsimp only
    by_cases h2 : v < 0 ∨ v > 65535
    · rw [if_pos h2]; intro e; exact absurd e (by simp)
    · rw [if_neg h2]
      by_cases h3 : allDots m.host = true
      · rw [if_pos h3]; intro e; exact absurd e (by simp)
      · rw [if_neg h3]
        intro e
        simp only [Option.some.injEq] at e
        subst e
        push_neg at h2
        refine ⟨rfl, rfl, rfl, rfl, by simpa using h3, v, rfl, by omega, by omega⟩

/-! ### Inputs without a colon never match (claim C1, amended part) -/

theorem mem_jsTrim_mem {l : List Char} {c : Char} (h : c ∈ jsTrim l) : c ∈ l := by
  unfold jsTrim at h
  have h1 := List.mem_reverse.mp h
  have h2 := mem_dropWhile_mem h1
  have h3 := List.mem_reverse.mp h2
  exact mem_dropWhile_mem h3

theorem matchSep_noColon {r r2 : List Char} (hr : ∀ c ∈ r, ¬ c = ':')
    (e : matchSep r = some r2) : ∀ c ∈ r2, c ∈ r := by
  cases r with
  | nil => simp [matchSep] at e
  | cons c cs =>
    have hc : (c == ':') = false := beq_eq_false_iff_ne.mpr (hr c (List.mem_cons_self _ _))
    simp only [matchSep] at e
    rw [if_neg (bool_ne_true hc)] at e
    by_cases hw : (c :: cs).takeWhile isJsWhitespace = []
    · rw [if_pos hw] at e; exact absurd e (by simp)
    · rw [if_neg hw] at e
      simp only [Option.some.injEq] at e
      subst e
      exact fun x hx => mem_dropWhile_mem hx

theorem matchCred_noColon {l : List Char} (h : ∀ c ∈ l, ¬ c = ':') : matchCred l = none := by
  cases hd : l.dropWhile isCredChar with
  | nil => by_cases h1 : l.takeWhile isCredChar = [] <;> simp [matchCred, hd, h1]
  | cons c r1 =>
    have hcl : c ∈ l := mem_dropWhile_mem (by rw [hd]; exact List.mem_cons_self _ _)
    have hcneq : (c == ':') = false := beq_eq_false_iff_ne.mpr (h c hcl)
    by_cases h1 : l.takeWhile isCredChar = [] <;> simp [matchCred, hd, h1, hcneq]

theorem matchHostPort_noColon {l : List Char} (h : ∀ c ∈ l, ¬ c = ':') :
    matchHostPort l = none := by
  cases hd : l.dropWhile isHostChar with
  | nil => by_cases h1 : l.takeWhile isHostChar = [] <;> simp [matchHostPort, hd, h1]
  | cons c r1 =>
    have hcl : c ∈ l := mem_dropWhile_mem (by rw [hd]; exact List.mem_cons_self _ _)
    have hcneq : (c == ':') = false := beq_eq_false_iff_ne.mpr (h c hcl)
    by_cases h1 : l.takeWhile isHostChar = [] <;> simp [matchHostPort, hd, h1, hcneq]

theorem matchBody_noColon {l : List Char} (h : ∀ c ∈ l, ¬ c = ':') : matchBody l = none := by
  simp only [matchBody, matchCred_noColon h, matchHostPort_noColon h]

theorem tryAlts_noColon {l : List Char} (h : ∀ c ∈ l, ¬ c = ':') :
    tryAlts schemeAlts l = none := by
  apply tryAlts_none_of
  intro a ha cap r r2 e1 e2
  have hl : l = cap ++ r := matchLitCI_append a l cap r e1
  have hr : ∀ c ∈ r, ¬ c = ':' := fun c hc => h c (by rw [hl]; exact List.mem_append_right cap hc)
  apply matchBody_noColon
  intro c hc
  exact hr c (matchSep_noColon hr e2 c hc)

theorem jsSearch_noColon : ∀ (l : List Char), (∀ c ∈ l, ¬ c = ':') → jsSearch l = none
  | [], _ => rfl
  | c :: cs, h => by
    rw [jsSearch_cons_none (matchAt_none_of (tryAlts_noColon h) (matchBody_noColon h))]
    exact jsSearch_noColon cs (fun x hx => h x (List.mem_cons_of_mem _ hx))

/-! ### The claims -/

/-- C1 counterexample: the regex is unanchored, so a proxy-shaped part
surrounded by other words still matches; the claim says such input
yields no match. -/
theorem spec_c1_counterexample :
    smartParseProxy "hello 1.2.3.4:80 world" = some ⟨"http", "1.2.3.4", "80", "", ""⟩ := by
  decide

/-- C1 (amended): the parser searches for the leftmost proxy-shaped
substring rather than matching the whole input; input with no colon at
all (hence no proxy-shaped substring), such as `"hello world"`, yields
no match, while surrounding text or a trailing path does not prevent a
match. -/
theorem spec_c1 :
    (∀ s : String, (∀ c ∈ s.data, ¬ c = ':') → smartParseProxy s = none) ∧
    smartParseProxy "hello world" = none ∧
    smartParseProxy "1.2.3.4:80/path" = some ⟨"http", "1.2.3.4", "80", "", ""⟩ := by
  refine ⟨?_, by decide, by decide⟩
  intro s h
  apply smartParse_of_search_none
  apply jsSearch_noColon
  intro c hc
  exact h c (mem_jsTrim_mem hc)

/-- Witness for C1 (amended) at a concrete input. -/
theorem spec_c1_witness : smartParseProxy "no colons here" = none :=
  spec_c1.1 "no colons here" (by decide)

/-- C2: every successful parse has a non-empty host over the host
alphabet that is not dot-only, and a port value within range; in
particular `"...:8080"` (dot-only host) yields no match. -/
theorem spec_c2 :
    (∀ (s : String) (d : ProxyDescriptor), smartParseProxy s = some d →
      d.host.data ≠ [] ∧ (∀ c ∈ d.host.data, isHostChar c = true) ∧
      allDots d.host.data = false ∧ digitsToNat d.port.data ≤ 65535) ∧
    smartParseProxy "...:8080" = none := by
  refine ⟨?_, by decide⟩
  intro s d e
  obtain ⟨m, hsearch, hfin⟩ := smartParseProxy_inv e
  obtain ⟨hhost, hport, huser, hpass, hdots, v, hv, hv0, hv1⟩ := finishParse_inv hfin
  obtain ⟨hcredI, hh1, hh2, hp1, hp2, hp5, hsufI⟩ := jsSearch_inv _ _ hsearch
  have hdata : d.host.data = m.host := by rw [hhost]
  have hpdata : d.port.data = m.port := by rw [hport]
  rw [hdata, hpdata]
  refine ⟨hh1, hh2, hdots, ?_⟩
  rw [jsParseInt_digits hp1 hp2] at hv
  simp only [Option.some.injEq] at hv
  omega

/-- Witness for C2 at a concrete input. -/
theorem spec_c2_witness :
    ("h" : String).data ≠ [] ∧ (∀ c ∈ ("h" : String).data, isHostChar c = true) ∧
    allDots ("h" : String).data = false ∧ digitsToNat ("80" : String).data ≤ 65535 :=
  spec_c2.1 "h:80" ⟨"http", "h", "80", "", ""⟩ (by decide)

/-- C6: when both credential positions participate in the match, the
descriptor takes username and password from the prefix form. -/
theorem spec_c6 (s : String) (m : RawMatch) (u pw u2 pw2 : List Char) (d : ProxyDescriptor)
    (hm : jsSearch (jsTrim s.data) = some m)
    (hc : m.cred = some (u, pw)) (_hs : m.suffix = some (u2, pw2))
    (hd : smartParseProxy s = some d) :
    d.user = String.mk u ∧ d.pass = String.mk pw := by
  obtain ⟨m2, hsearch2, hfin⟩ := smartParseProxy_inv hd
  rw [hm] at hsearch2
  simp only [Option.some.injEq] at hsearch2
  subst hsearch2
  obtain ⟨-, -, huser, hpass, -, -⟩ := finishParse_inv hfin
  obtain ⟨hcredI, -, -, -, -, -, -⟩ := jsSearch_inv _ _ hm
  rcases hcredI u pw hc with ⟨hu, hpw⟩
  constructor
  · rw [huser]
    congr 1
    simp only [hc, Option.map_some', jsOr]
    rw [if_neg hu]
  · rw [hpass]
    congr 1
    simp only [hc, Option.map_some', jsOr]
    rw [if_neg hpw]

/-- Witness for C6 at a concrete input with both credential positions. -/
theorem spec_c6_witness :
    (⟨"http", "h", "80", "u", "p"⟩ : ProxyDescriptor).user = String.mk "u".data ∧
    (⟨"http", "h", "80", "u", "p"⟩ : ProxyDescriptor).pass = String.mk "p".data :=
  spec_c6 "u:p@h:80:a:b"
    ⟨none, some ("u".data, "p".data), "h".data, "80".data, some ("a".data, "b".data)⟩
    "u".data "p".data "a".data "b".data ⟨"http", "h", "80", "u", "p"⟩
    (by decide) rfl rfl (by decide)

/-- C7 (amended): the port field of a successful parse is the matched
digit substring: non-empty, at most five digits, and its numeric value
is at most 65535. -/
theorem spec_c7 :
    ∀ (s : String) (d : ProxyDescriptor), smartParseProxy s = some d →
      d.port.data ≠ [] ∧ d.port.data.length ≤ 5 ∧
      (∀ c ∈ d.port.data, isDigitChar c = true) ∧ digitsToNat d.port.data ≤ 65535 := by
  intro s d e
  obtain ⟨m, hsearch, hfin⟩ := smartParseProxy_inv e
  obtain ⟨-, hport, -, -, -, v, hv, -, hv1⟩ := finishParse_inv hfin
  obtain ⟨-, -, -, hp1, hp2, hp5, -⟩ := jsSearch_inv _ _ hsearch
  have hpdata : d.port.data = m.port := by rw [hport]
  rw [hpdata]
  refine ⟨hp1, hp5, hp2, ?_⟩
  rw [jsParseInt_digits hp1 hp2] at hv
  simp only [Option.some.injEq] at hv
  omega

/-- C7 counterexample: the port field is the matched digit substring
(a string), not an integer: parsing `"h:080"` stores `"080"`, which is
not the decimal representation of its value 80. -/
theorem spec_c7_counterexample :
    smartParseProxy "h:080" = some ⟨"http", "h", "080", "", ""⟩ ∧
    digitsToNat ("080" : String).data = 80 ∧ ("080" : String) ≠ "80" := by
  refine ⟨by decide, by decide, by decide⟩

/-- Witness for C7 (amended) at a concrete input. -/
theorem spec_c7_witness :
    ("80" : String).data ≠ [] ∧ ("80" : String).data.length ≤ 5 ∧
    (∀ c ∈ ("80" : String).data, isDigitChar c = true) ∧
    digitsToNat ("80" : String).data ≤ 65535 :=
  spec_c7 "h:80" ⟨"http", "h", "80", "", ""⟩ (by decide)

/-- C8: in every successful parse the username and password are either
both empty or both non-empty. -/
theorem spec_c8 :
    ∀ (s : String) (d : ProxyDescriptor), smartParseProxy s = some d →
      (d.user = "" ↔ d.pass = "") := by
  intro s d e
  obtain ⟨m, hsearch, hfin⟩ := smartParseProxy_inv e
  obtain ⟨-, -, huser, hpass, -, -⟩ := finishParse_inv hfin
  obtain ⟨hcredI, -, -, -, -, -, hsufI⟩ := jsSearch_inv _ _ hsearch
  have hempty : ∀ l : List Char, (String.mk l = "" ↔ l = []) := by
    intro l
    constructor
    · intro h
      have h2 := congrArg String.data h
      simpa using h2
    · intro h
      rw [h]
  rw [huser, hpass, hempty, hempty]
  cases hcr : m.cred with
  | some pr =>
    rcases pr with ⟨u, pw⟩
    rcases hcredI u pw hcr with ⟨hu, hpw⟩
    have e1 : jsOr ((some (u, pw)).map Prod.fst) (m.suffix.map Prod.fst) = u := by
      simp only [Option.map_some', jsOr]
      rw [if_neg hu]
    have e2 : jsOr ((some (u, pw)).map Prod.snd) (m.suffix.map Prod.snd) = pw := by
      simp only [Option.map_some', jsOr]
      rw [if_neg hpw]
    rw [e1, e2]
    simp [hu, hpw]
  | none =>
    cases hsf : m.suffix with
    | some pr =>
      rcases pr with ⟨u, pw⟩
      rcases hsufI u pw hsf with ⟨hu, hpw⟩
      have e1 : jsOr ((none : Option (List Char × List Char)).map Prod.fst)
          ((some (u, pw)).map Prod.fst) = u := by
        simp only [Option.map_some', Option.map_none', jsOr, jsOrB]
        rw [if_neg hu]
      have e2 : jsOr ((none : Option (List Char × List Char)).map Prod.snd)
          ((some (u, pw)).map Prod.snd) = pw := by
        simp only [Option.map_some', Option.map_none', jsOr, jsOrB]
        rw [if_neg hpw]
      rw [e1, e2]
      simp [hu, hpw]
    | none => simp [jsOr, jsOrB]

/-- Witness for C8 at a concrete input. -/
theorem spec_c8_witness :
    (("" : String) = "" ↔ ("" : String) = "") :=
  spec_c8 "h:80" ⟨"http", "h", "80", "", ""⟩ (by decide)

/-- C9: the parser is a total function: on every input it yields either
a descriptor or `none` (the embedding has no exceptions), and
whitespace-only (in particular empty) input yields `none`. -/
theorem spec_c9 (s : String) :
    ((∃ d, smartParseProxy s = some d) ∨ smartParseProxy s = none) ∧
    (s.data.all isJsWhitespace = true → smartParseProxy s = none) := by
  constructor
  · cases e : smartParseProxy s with
    | none => exact Or.inr rfl
    | some d => exact Or.inl ⟨d, rfl⟩
  · intro hws
    have hall : ∀ c ∈ s.data, isJsWhitespace c = true := by
      simpa [List.all_eq_true] using hws
    have h1 : jsTrim s.data = [] := by
      unfold jsTrim
      rw [dropWhile_all hall]
      rfl
    simp [smartParseProxy, h1]

/-- Witness for C9 at a concrete whitespace-only input. -/
theorem spec_c9_witness : smartParseProxy (String.mk [' ', ' ']) = none :=
  (spec_c9 (String.mk [' ', ' '])).2 (by decide)

/-- C10: the suffix credential tokens admit `@` while the prefix tokens
do not (`[^:\s]` versus `[^:@\s]`); `"h:80:a@b:c@d"` parses with
username `a@b` and password `c@d`. -/
theorem spec_c10 :
    smartParseProxy "h:80:a@b:c@d" = some ⟨"http", "h", "80", "a@b", "c@d"⟩ ∧
    (∀ c : Char, isCredChar c = (isSuffixChar c && !(c == '@'))) := by
  refine ⟨by decide, ?_⟩
  intro c
  simp only [isCredChar, isSuffixChar]
  cases h1 : (c == ':') <;> cases h2 : (c == '@') <;> cases h3 : isJsWhitespace c <;> simp

/-- Witness for C10 at a concrete character. -/
theorem spec_c10_witness : isCredChar 'x' = (isSuffixChar 'x' && !('x' == '@')) :=
  spec_c10.2 'x'
